import Mathlib

/-!
Verification development for `exoclasma_note.py` (exoclasma-note repository).

The Python source is shallowly embedded: every definition below models a
function (or a lambda / pipeline fragment) of `src/exoclasma_note/exoclasma_note.py`,
or a Python standard-library routine that those functions call
(`json.dumps` / `json.loads` with their default arguments,
`base64.b16encode` / `base64.b16decode`, `str.split`, `int()`, `float()`).
Strings are modelled as `List Char` (Unicode scalar values, which is what both
Python `str` and Lean `String` hold), bytes as `Nat` values below 256,
Python `int` as `Int`, and finite Python floats as exact fractions
(binary rounding is abstracted away; it is irrelevant to the claims proved here,
which concern parse failure, NaN propagation and comparison polarity).
-/

namespace ExoNote

/-- Cell values that can appear in a decoded database row: the databases fed to
`Tsv2Gff3` are TSV tables read by pandas, whose cells are strings or integers in
the scope of this model (floats are outside the model). `json.dumps` serializes
them as JSON strings and JSON integers respectively. -/
inductive JVal where
  | jstr (s : String)
  | jint (n : Int)
deriving DecidableEq, Repr

/-- A decoded key/value map of the non-anchor columns of one database row
(`x.to_dict()` in `Tsv2Gff3`): an insertion-ordered association list, as a
Python `dict` is. -/
abbrev Dict := List (String × JVal)

/-! ### Character helpers -/

/-- Decimal digit character for `n < 10` (codepoint `48 + n`). -/
def digitChar (n : Nat) : Char := Char.ofNat (48 + n % 10)

/-- Lowercase hexadecimal digit for `n < 16`, as emitted by Python's
`json.dumps` in `\uXXXX` escapes (`'\u%04x' % n` uses lowercase). -/
def hexCharLower (n : Nat) : Char :=
  if n % 16 < 10 then Char.ofNat (48 + n % 16) else Char.ofNat (87 + n % 16)

/-- Uppercase hexadecimal digit for `n < 16`, as emitted by
`base64.b16encode` (RFC 4648 base16 is uppercase). -/
def hexCharUpper (n : Nat) : Char :=
  if n % 16 < 10 then Char.ofNat (48 + n % 16) else Char.ofNat (55 + n % 16)

/-- Four lowercase hex digits of `n < 0x10000`, most significant first. -/
def hex4 (n : Nat) : List Char :=
  [hexCharLower (n / 4096), hexCharLower (n / 256), hexCharLower (n / 16), hexCharLower n]

/-- Value of a hexadecimal digit character, either case
(`json.loads` accepts both cases in `\uXXXX`). -/
def hexVal (c : Char) : Option Nat :=
  if 48 ≤ c.toNat ∧ c.toNat ≤ 57 then some (c.toNat - 48)
  else if 97 ≤ c.toNat ∧ c.toNat ≤ 102 then some (c.toNat - 87)
  else if 65 ≤ c.toNat ∧ c.toNat ≤ 70 then some (c.toNat - 55)
  else none

/-- Value of an uppercase-only hexadecimal digit character:
`base64.b16decode` with its default `casefold=False` rejects lowercase. -/
def hexValUpper (c : Char) : Option Nat :=
  if 48 ≤ c.toNat ∧ c.toNat ≤ 57 then some (c.toNat - 48)
  else if 65 ≤ c.toNat ∧ c.toNat ≤ 70 then some (c.toNat - 55)
  else none

/-! ### `json.dumps` (default arguments: `ensure_ascii=True`,
separators `(', ', ': ')`) restricted to one flat object of strings/ints. -/

/-- Escape of a single character inside a JSON string literal, exactly as
Python's `json.encoder.py_encode_basestring_ascii` does with
`ensure_ascii=True`: the named escapes, literal ASCII `0x20`–`0x7e`,
`\uXXXX` for everything else, surrogate pairs above `0xFFFF`. -/
def escChar (c : Char) : List Char :=
  if c = '"' then ['\\', '"']
  else if c = '\\' then ['\\', '\\']
  else if c.toNat = 8 then ['\\', 'b']
  else if c.toNat = 12 then ['\\', 'f']
  else if c.toNat = 10 then ['\\', 'n']
  else if c.toNat = 13 then ['\\', 'r']
  else if c.toNat = 9 then ['\\', 't']
  else if 32 ≤ c.toNat ∧ c.toNat ≤ 126 then [c]
  else if c.toNat < 65536 then '\\' :: 'u' :: hex4 c.toNat
  else
    '\\' :: 'u' :: hex4 (55296 + (c.toNat - 65536) / 1024) ++
      ('\\' :: 'u' :: hex4 (56320 + (c.toNat - 65536) % 1024))

/-- Escape every character of a string body. -/
def escList : List Char → List Char
  | [] => []
  | c :: r => escChar c ++ escList r

/-- A JSON string literal: `"` + escaped body + `"`. -/
def jsonStrChars (s : List Char) : List Char := '"' :: escList s ++ ['"']

/-- Decimal digits of `n`, most significant first (fuel-indexed so that the
kernel can evaluate it; `natDigits` supplies enough fuel). -/
def natDigitsAux : Nat → Nat → List Char
  | 0, _ => []
  | fuel + 1, n => if n < 10 then [digitChar n] else natDigitsAux fuel (n / 10) ++ [digitChar (n % 10)]

/-- Decimal digits of a natural number, as Python's `repr`/`str` prints it. -/
def natDigits (n : Nat) : List Char := natDigitsAux (n + 1) n

/-- Python's decimal rendering of an `int` (what `json.dumps` emits for it). -/
def intChars (n : Int) : List Char :=
  if n < 0 then '-' :: natDigits n.natAbs else natDigits n.toNat

/-- `json.dumps` of a single cell value. -/
def dumpVal : JVal → List Char
  | .jstr s => jsonStrChars s.data
  | .jint n => intChars n

/-- `json.dumps` of one `key: value` member (separator `': '`). -/
def dumpEntry (e : String × JVal) : List Char :=
  jsonStrChars e.1.data ++ ':' :: ' ' :: dumpVal e.2

/-- `json.dumps` of the members of an object, joined by `', '`. -/
def dumpEntries : Dict → List Char
  | [] => []
  | [e] => dumpEntry e
  | e :: es => dumpEntry e ++ ',' :: ' ' :: dumpEntries es

/-- `json.dumps(d)` for a flat dict `d`, default separators: `{` members `}`. -/
def dumpObj (m : Dict) : List Char := '\x7b' :: dumpEntries m ++ ['\x7d']

/-! ### `json.loads`, restricted to one flat object of strings/ints.
We model the grammar `json.loads` accepts on such inputs (with whitespace
tolerance around the punctuation); unpaired surrogate escapes — which Lean's
`Char` cannot represent and which no `json.dumps` output contains — are
rejected instead of producing lone-surrogate strings. -/

/-- JSON insignificant whitespace (`json.decoder.WHITESPACE_STR`). -/
def jsonSpace (c : Char) : Bool :=
  c = ' ' || c = '\t' || c = '\n' || c = '\r'

/-- Skip insignificant whitespace. -/
def skipSpaces (l : List Char) : List Char := l.dropWhile jsonSpace

/-- Combine four hex digit characters into one number. -/
def hex4Val (a b c d : Char) : Option Nat :=
  match hexVal a, hexVal b, hexVal c, hexVal d with
  | some x, some y, some z, some w => some (4096 * x + 256 * y + 16 * z + w)
  | _, _, _, _ => none

/-- The single-character named escapes of JSON. -/
def escNamed (c : Char) : Option Char :=
  if c = '"' then some '"'
  else if c = '\\' then some '\\'
  else if c = '/' then some '/'
  else if c = 'b' then some (Char.ofNat 8)
  else if c = 'f' then some (Char.ofNat 12)
  else if c = 'n' then some '\n'
  else if c = 'r' then some '\r'
  else if c = 't' then some '\t'
  else none

/-- After a high surrogate `\uXXXX` escape, parse the mandatory low
surrogate escape and combine the pair into one scalar value. -/
def parseLowSur (u : Nat) (l : List Char) : Option (Char × List Char) :=
  match l with
  | b1 :: b2 :: a :: b :: c :: d :: r =>
    if b1 = '\\' ∧ b2 = 'u' then
      match hex4Val a b c d with
      | none => none
      | some u2 =>
        if 56320 ≤ u2 ∧ u2 ≤ 57343 then
          some (Char.ofNat (65536 + (u - 55296) * 1024 + (u2 - 56320)), r)
        else none
    else none
  | _ => none

/-- Parse the four hex digits of a `\uXXXX` escape; a high surrogate must be
followed by a low surrogate escape (an unpaired surrogate is rejected — Lean
characters cannot hold one, and no `json.dumps` output contains one). -/
def parseU (l : List Char) : Option (Char × List Char) :=
  match l with
  | a :: b :: c :: d :: r =>
    match hex4Val a b c d with
    | none => none
    | some u =>
      if 55296 ≤ u ∧ u ≤ 56319 then parseLowSur u r
      else if 56320 ≤ u ∧ u ≤ 57343 then none
      else some (Char.ofNat u, r)
  | _ => none

/-- Parse one escape sequence after the backslash. -/
def parseEsc (l : List Char) : Option (Char × List Char) :=
  match l with
  | [] => none
  | e :: r =>
    if e = 'u' then parseU r
    else
      match escNamed e with
      | none => none
      | some ch => some (ch, r)

/-- Parse the body of a JSON string literal after the opening quote, returning
the decoded characters and the input following the closing quote. Fuel-indexed
(every step consumes at least one input character, so the input length is
enough fuel). -/
def parseStrBodyF : Nat → List Char → Option (List Char × List Char)
  | 0, _ => none
  | fuel + 1, l =>
    match l with
    | [] => none
    | c :: r =>
      if c = '"' then some ([], r)
      else if c = '\\' then
        match parseEsc r with
        | none => none
        | some (ch, r2) =>
          match parseStrBodyF fuel r2 with
          | none => none
          | some (s, rest) => some (ch :: s, rest)
      else if c.toNat < 32 then none
      else
        match parseStrBodyF fuel r with
        | none => none
        | some (s, rest) => some (c :: s, rest)

/-- The body of a JSON string literal, with the fuel instantiated. -/
def parseStrBody (l : List Char) : Option (List Char × List Char) :=
  parseStrBodyF l.length l

/-- Numeric value of a list of decimal digit characters. -/
def digitsVal (l : List Char) : Nat :=
  l.foldl (fun acc c => acc * 10 + (c.toNat - 48)) 0

/-- Whether a list starts with a decimal digit. -/
def headIsDigit : List Char → Bool
  | [] => false
  | c :: _ => c.isDigit

/-- Parse a maximal nonempty run of decimal digits. -/
def parseDigits (l : List Char) : Option (Nat × List Char) :=
  match l.takeWhile Char.isDigit with
  | [] => none
  | ds => some (digitsVal ds, l.dropWhile Char.isDigit)

/-- Parse one JSON value of the shapes `json.dumps` emits for our cell
values: a string literal or a (possibly negative) integer. -/
def parseVal (l : List Char) : Option (JVal × List Char) :=
  match l with
  | [] => none
  | c :: r =>
    if c = '"' then
      match parseStrBody r with
      | none => none
      | some (s, rest) => some (.jstr (String.mk s), rest)
    else if c = '-' then
      match parseDigits r with
      | none => none
      | some (n, rest) => some (.jint (-(n : Int)), rest)
    else if c.isDigit then
      match parseDigits l with
      | none => none
      | some (n, rest) => some (.jint (n : Int), rest)
    else none

/-- Parse one `"key": value` member, positioned at the `"` of the key, then
the following delimiter: `true` with the input after a `','` (and its
trailing whitespace) when more members follow, `false` with the input after
the closing `}` when this was the last member. -/
def parseEntryStep (l : List Char) : Option ((String × JVal) × (Bool × List Char)) :=
  match l with
  | [] => none
  | c :: r =>
    if c = '"' then
      match parseStrBody r with
      | none => none
      | some (k, r2) =>
        match skipSpaces r2 with
        | [] => none
        | c2 :: r4 =>
          if c2 = ':' then
            match parseVal (skipSpaces r4) with
            | none => none
            | some (v, r6) =>
              match skipSpaces r6 with
              | [] => none
              | c3 :: r8 =>
                if c3 = ',' then some ((String.mk k, v), (true, skipSpaces r8))
                else if c3 = '\x7d' then some ((String.mk k, v), (false, r8))
                else none
          else none
    else none

/-- Parse the members of a JSON object, positioned at the first `"` of a key;
consumes the closing `}`. Fuel bounds the number of members. -/
def parseEntries : Nat → List Char → Option (Dict × List Char)
  | 0, _ => none
  | fuel + 1, l =>
    match parseEntryStep l with
    | none => none
    | some (e, more, rest) =>
      if more then
        match parseEntries fuel rest with
        | none => none
        | some (es, r2) => some (e :: es, r2)
      else some ([e], rest)

/-- Parse one JSON object `{...}`. -/
def parseObj (l : List Char) : Option (Dict × List Char) :=
  match l with
  | [] => none
  | c :: r =>
    if c = '\x7b' then
      match skipSpaces r with
      | [] => none
      | c1 :: r2 =>
        if c1 = '\x7d' then some ([], r2)
        else parseEntries (c1 :: r2).length (c1 :: r2)
    else none

/-- `json.loads` on our payloads: one object, then nothing but whitespace. -/
def jsonLoads (l : List Char) : Option Dict :=
  match parseObj (skipSpaces l) with
  | none => none
  | some (m, rest) => if skipSpaces rest = [] then some m else none

/-! ### `base64.b16encode` / `b16decode` and the ASCII byte conversions -/

/-- `base64.b16encode`: two uppercase hex digits per byte. -/
def hexEncode : List Nat → List Char
  | [] => []
  | b :: r => hexCharUpper (b / 16) :: hexCharUpper b :: hexEncode r

/-- `base64.b16decode` (default `casefold=False`): uppercase pairs only. -/
def hexDecode : List Char → Option (List Nat)
  | [] => some []
  | [_] => none
  | a :: b :: r =>
    match hexValUpper a, hexValUpper b, hexDecode r with
    | some x, some y, some t => some ((16 * x + y) :: t)
    | _, _, _ => none

/-- `str.encode('utf-8')` for ASCII strings (every payload string is ASCII
because `json.dumps` runs with `ensure_ascii=True`; we prove this of
`dumpObj` below). -/
def asciiBytes (l : List Char) : List Nat := l.map Char.toNat

/-- `bytes.decode('utf-8')` restricted to ASCII bytes; multi-byte UTF-8
sequences never occur in base16 output, the only place this is applied. -/
def asciiDecode : List Nat → Option (List Char)
  | [] => some []
  | b :: r =>
    if b < 128 then
      match asciiDecode r with
      | none => none
      | some t => some (Char.ofNat b :: t)
    else none

/-! ### The attribute encoder (`Tsv2Gff3`, line 259) and decoder
(`CureBase`, line 320) -/

/-- `Tsv2Gff3` line 259: `"ID=" + base64.b16encode(json.dumps(x.to_dict())
.encode('utf-8')).decode('utf-8')` — the hex string is ASCII, so the final
`.decode('utf-8')` is the identity on its characters. -/
def encodeAttr (m : Dict) : List Char :=
  'I' :: 'D' :: '=' :: hexEncode (asciiBytes (dumpObj m))

/-- Python `str.split(sep)` for a one-character separator. -/
def pySplit (sep : Char) : List Char → List (List Char)
  | [] => [[]]
  | c :: r =>
    if c = sep then [] :: pySplit sep r
    else
      match pySplit sep r with
      | [] => [[c]]
      | h :: t => (c :: h) :: t

/-- `Option`-valued `mapM` over a list (models a Python comprehension whose
body may raise). -/
def optMapM (f : α → Option β) : List α → Option (List β)
  | [] => some []
  | a :: l =>
    match f a with
    | none => none
    | some b =>
      match optMapM f l with
      | none => none
      | some bs => some (b :: bs)

/-- Decode one hex payload: `json.loads(base64.b16decode(item.encode('utf-8'))
.decode('utf-8'))`. `item.encode('utf-8')` is the identity on the ASCII hex
characters `b16decode` accepts. -/
def decodeOne (item : List Char) : Option Dict :=
  match hexDecode item with
  | none => none
  | some bs =>
    match asciiDecode bs with
    | none => none
    | some cs => jsonLoads cs

/-- `CureBase` line 320, the non-sentinel branch of the lambda:
`[json.loads(base64.b16decode(item.encode('utf-8')).decode('utf-8'))
for item in x.split("=")[1].split(",")]`. `none` models a raised exception
(index error on a `=`-free cell, or a decode failure). -/
def decodeCell (cell : List Char) : Option (List Dict) :=
  match pySplit '=' cell with
  | _ :: payload :: _ => optMapM decodeOne (pySplit ',' payload)
  | _ => none

/-! ### `CureBase` decoded-overlap aggregation (lines 321–332)

After line 320 each custom-database cell of a variant row is either the
sentinel `'.'` (no overlapping interval) or the decoded list of key/value
maps of the overlapping intervals. We model the per-variant, per-database
remainder of the pipeline: line 324 expands a decoded list into per-sub-field
columns, `pandas.concat` leaves `NaN` where a variant had no overlap, line 329
adds never-observed expected columns as all-`NaN`, line 331 flattens every
cell (`NaN → '.'`, list → sorted deduplicated join), and line 332 restricts
to the expected columns returned by `Tsv2Gff3`. -/

/-- Python `str(item)` for a decoded cell value. -/
def jvalStr : JVal → String
  | .jstr s => s
  | .jint n => String.mk (intChars n)

/-- Lexicographic comparison of strings by code point (Python `str < str`). -/
def lexLe : List Char → List Char → Bool
  | [], _ => true
  | _ :: _, [] => false
  | a :: as, b :: bs => a < b || (a = b && lexLe as bs)

/-- Python `<=` on decoded cell values. Within one database column all values
have one type, so only the same-constructor cases are ever reached; the
cross-constructor results are an arbitrary total completion (Python would
raise `TypeError` there). -/
def jvalLe : JVal → JVal → Bool
  | .jint a, .jint b => a ≤ b
  | .jstr a, .jstr b => lexLe a.data b.data
  | .jint _, .jstr _ => true
  | .jstr _, .jint _ => false

/-- `jvalLe` as a decidable relation, for `List.insertionSort`. -/
def jvalLeP (a b : JVal) : Prop := jvalLe a b = true

instance : DecidableRel jvalLeP := fun a b => by unfold jvalLeP; infer_instance

/-- Python `sorted(list(set(x)))`: the distinct values in ascending order. -/
def sortDedup (xs : List JVal) : List JVal := List.insertionSort jvalLeP xs.dedup

/-- Join pieces with a separator (`'; '.join` in line 331). -/
def joinSep (sep : List Char) : List (List Char) → List Char
  | [] => []
  | [x] => x
  | x :: xs => x ++ sep ++ joinSep sep xs

/-- Line 331 lambda on one cell: `'.' if x != x else
'; '.join([str(item) for item in sorted(list(set(x)))])`. `none` models the
`NaN` cell (the only value with `x != x`). -/
def flattenCell : Option (List JVal) → String
  | none => "."
  | some xs => String.mk (joinSep "; ".data ((sortDedup xs).map (fun v => (jvalStr v).data)))

/-- Line 324 lambda on one non-sentinel cell: an empty first map yields the
boolean presence marker, otherwise one column per key of the FIRST map, whose
value is the list of that key's values in ALL overlapping maps (`dic[k]`
raises `KeyError`, modelled as `none`, if some map lacks the key; `LD[0]` on
an empty list would raise `IndexError`, also `none`). -/
def expandCell (dbName : String) (LD : List Dict) : Option (List (String × List JVal)) :=
  match LD with
  | [] => none
  | d0 :: _ =>
    if d0 = [] then some [(dbName, [JVal.jstr "yes"])]
    else
      optMapM (fun k =>
          match optMapM (fun dic => dic.lookup k) LD with
          | none => none
          | some vs => some (dbName ++ "." ++ k, vs))
        (d0.map Prod.fst)

/-- `Tsv2Gff3` line 272: the expected merged-column names for one database. -/
def dbExpectedCols (dbName : String) (attrCols : List String) : List String :=
  if attrCols.isEmpty then [dbName] else attrCols.map (fun c => dbName ++ "." ++ c)

/-- The merged columns one database contributes to one variant row after
lines 321–332: `anyObserved` is `NewCols.size > 0` (whether ANY variant had an
overlap with this database); `cell` is this variant's decoded cell (`none` =
the `'.'` sentinel of line 320). A `none` result models an uncaught exception
inside line 324. -/
def dbMergedRow (dbName : String) (attrCols : List String) (anyObserved : Bool)
    (cell : Option (List Dict)) : Option (List (String × String)) :=
  if anyObserved = false then
    -- line 326/329: the columns were never created, so they are added as
    -- entirely-missing (`NaN`) columns, which line 331 turns into `'.'`
    some ((dbExpectedCols dbName attrCols).map (fun c => (c, ".")))
  else
    match cell with
    | none =>
      -- this variant was excluded from `NewCols` (line 322), so after the
      -- `pandas.concat` of line 325 its expanded cells are `NaN`,
      -- which line 331 turns into `'.'`
      some ((dbExpectedCols dbName attrCols).map (fun c => (c, ".")))
    | some LD =>
      match expandCell dbName LD with
      | none => none
      | some entries =>
        some ((dbExpectedCols dbName attrCols).map (fun c =>
          (c, flattenCell (entries.lookup c))))

/-! ### `Tsv2Gff3` interval filtering, ranking, sorting and clamping
(lines 248–261) -/

/-- One row of a custom interval database: its contig, start coordinate and
the key/value map of its non-anchor columns. -/
structure DbRow where
  chrom : String
  start : Int
  attrs : Dict
deriving DecidableEq, Repr

/-- Line 261: `lambda x: 1 if x == 0 else x` applied to the start column. -/
def clampStart (x : Int) : Int := if x = 0 then 1 else x

/-- Line 241: `Chroms = {value: index for index, value in enumerate(...)}` —
the rank of a contig is its declaration position in the reference `.fai`. -/
def rankOf (chroms : List String) (c : String) : Nat :=
  match chroms with
  | [] => 0
  | x :: r => if x = c then 0 else rankOf r c + 1

/-- `sort_values(["Rank", StartCol])`: non-decreasing in the pair
(contig rank, start). -/
def rowLe (chroms : List String) (a b : DbRow) : Prop :=
  rankOf chroms a.chrom < rankOf chroms b.chrom ∨
    (rankOf chroms a.chrom = rankOf chroms b.chrom ∧ a.start ≤ b.start)

instance rowLe.instDecidable (chroms : List String) : DecidableRel (rowLe chroms) :=
  fun a b => by unfold rowLe; infer_instance

/-- Lines 250–252 and 261 of `Tsv2Gff3`: drop rows whose contig is not in the
reference index, sort by (contig rank, start), then clamp a start of 0 to 1.
The records of the output GFF3 body are these rows in this order. -/
def tsv2gff3Emitted (chroms : List String) (rows : List DbRow) : List DbRow :=
  (List.insertionSort (rowLe chroms) (rows.filter (fun r => chroms.contains r.chrom))).map
    (fun r => { r with start := clampStart r.start })

/-! ### `AnnoFit` parsing helpers: Python `int()` and `float()` on strings.
Scope of the model: ASCII inputs without digit-group underscores (the data
fed to these functions — genotypes, pLi scores, population frequencies —
never contains either). -/

/-- Python `str.strip()` whitespace. -/
def isPySpace (c : Char) : Bool :=
  c = ' ' || c.toNat = 9 || c.toNat = 10 || c.toNat = 13 || c.toNat = 11 || c.toNat = 12

/-- Python `str.strip()`. -/
def pyStrip (l : List Char) : List Char :=
  ((l.dropWhile isPySpace).reverse.dropWhile isPySpace).reverse

/-- Python `int(s)` for a decimal string: optional surrounding whitespace,
optional sign, one or more digits; anything else raises (`none`). -/
def pyIntChars (l : List Char) : Option Int :=
  let digits : List Char → Option Nat := fun ds =>
    if ds ≠ [] ∧ ds.all Char.isDigit then some (digitsVal ds) else none
  match pyStrip l with
  | [] => none
  | c :: r =>
    if c = '+' then (digits r).map (fun n => (n : Int))
    else if c = '-' then (digits r).map (fun n => -(n : Int))
    else (digits (c :: r)).map (fun n => (n : Int))

/-- `AnnoFit.FormatInt` (lines 360–364): `int(String)`, `None` on
`ValueError`. -/
def FormatInt (s : String) : Option Int := pyIntChars s.data

/-- `AnnoFit.FormatGenotype` (lines 413–416): split on `'/'`, parse the two
allele indices; any parse failure or a piece count other than two yields the
sentinel; two equal non-zero indices yield `"HOMO"`; anything else passes the
input through verbatim. -/
def FormatGenotype (s : String) : String :=
  match (pySplit '/' s.data).map (fun p => pyIntChars p) with
  | [some a, some b] => if a = b ∧ a ≠ 0 then "HOMO" else s
  | _ => "."

/-- `AnnoFit.FormatVcfMetadata` (lines 386–393): split the format string and
the sample string on `':'`; on equal lengths return the identity field
followed by the zipped `VCF.`-prefixed name/value fields, otherwise only the
identity field. -/
def FormatVcfMetadata (header dataStr nameV : String) : List (String × String) :=
  let hs := (pySplit ':' header.data).map (fun h => "VCF." ++ String.mk h)
  let ds := (pySplit ':' dataStr.data).map String.mk
  if hs.length = ds.length then ("Name", nameV) :: hs.zip ds else [("Name", nameV)]

/-! ### Python floats: `float(str)` parsing and IEEE-754 comparison polarity.
Finite values are carried as exact fractions `num / den` (`den` positive by
construction, not reduced); the binary rounding of `float` is abstracted away
(no claim below depends on it), while the special values `inf`, `-inf`,
`nan` — which drive the claims — are explicit. -/

/-- A Python float: a finite value `num / den`, an infinity, or NaN. -/
inductive PyFloat where
  | val (num : Int) (den : Nat)
  | pinf
  | ninf
  | nan
deriving DecidableEq, Repr

/-- Unsigned decimal float body: `digits [. digits] [(e|E) [sign] digits]`,
with at least one digit in the mantissa. Returns the numerator/denominator
of the exact value. -/
def parseUFloat (l : List Char) : Option (Int × Nat) :=
  let ip := l.takeWhile Char.isDigit
  let r1 := l.dropWhile Char.isDigit
  let fr : List Char × List Char :=
    match r1 with
    | '.' :: r => (r.takeWhile Char.isDigit, r.dropWhile Char.isDigit)
    | _ => ([], r1)
  let num0 : Int := (digitsVal ip * 10 ^ fr.1.length + digitsVal fr.1 : Nat)
  let den0 : Nat := 10 ^ fr.1.length
  if ip = [] ∧ fr.1 = [] then none
  else
    match fr.2 with
    | [] => some (num0, den0)
    | e :: r3 =>
      if e = 'e' ∨ e = 'E' then
        let se : Bool × List Char :=
          match r3 with
          | '+' :: r => (false, r)
          | '-' :: r => (true, r)
          | r => (false, r)
        if se.2 ≠ [] ∧ se.2.all Char.isDigit then
          some (if se.1 then (num0, den0 * 10 ^ digitsVal se.2)
                else (num0 * 10 ^ digitsVal se.2, den0))
        else none
      else none

/-- Python `float(s)`: strip whitespace, optional sign, then case-insensitive
`inf`/`infinity`/`nan` or a decimal body; anything else raises (`none`). -/
def pyFloat (s : String) : Option PyFloat :=
  let t := pyStrip s.data
  let su : Bool × List Char :=
    match t with
    | '+' :: r => (false, r)
    | '-' :: r => (true, r)
    | r => (false, r)
  let low := su.2.map Char.toLower
  if low = "inf".data ∨ low = "infinity".data then
    some (if su.1 then .ninf else .pinf)
  else if low = "nan".data then some .nan
  else
    match parseUFloat su.2 with
    | none => none
    | some q => some (.val (if su.1 then -q.1 else q.1) q.2)

/-- `AnnoFit.FormatPopulationFreq` (lines 383–385): `-1.0` when `float()`
raises, the parsed value otherwise. -/
def FormatPopulationFreq (s : String) : PyFloat :=
  match pyFloat s with
  | none => .val (-1) 1
  | some v => v

/-- Whether a Python float is NaN. -/
def isNan : PyFloat → Bool
  | .nan => true
  | _ => false

/-- IEEE-754 `<` (finite comparison by cross-multiplication, denominators
being positive): any comparison against NaN is false. -/
def pfLt (a b : PyFloat) : Bool :=
  match a, b with
  | .nan, _ => false
  | _, .nan => false
  | .ninf, .ninf => false
  | .ninf, _ => true
  | _, .ninf => false
  | .pinf, _ => false
  | .val _ _, .pinf => true
  | .val n1 d1, .val n2 d2 => decide (n1 * (d2 : Int) < n2 * (d1 : Int))

/-- IEEE-754 `>=`: false whenever either side is NaN. -/
def pfGe (a b : PyFloat) : Bool :=
  if isNan a || isNan b then false else !pfLt a b

/-- Fold step of a float maximum. -/
def pfMax (a b : PyFloat) : PyFloat := if pfLt a b then b else a

/-- `pandas.Series.max()` with its default `skipna=True`, as applied in line
503: NaN entries are skipped; if nothing remains the result is NaN. -/
def popMax (xs : List PyFloat) : PyFloat :=
  match xs.filter (fun v => !isNan v) with
  | [] => .nan
  | h :: t => t.foldl pfMax h

/-- Lines 503 and 531: `AnnoFit.PopFreqMax` is the skip-NaN maximum of the
`FormatPopulationFreq` of the population columns, and the row passes the
`PopMax` filter iff that maximum is `<` the configured ceiling. -/
def popMaxFilter (thresh : PyFloat) (cols : List String) : Bool :=
  pfLt (popMax (cols.map FormatPopulationFreq)) thresh

/-! ### Stage-2 (dominance) filtering: lines 440–450 and 554–563 -/

/-- Python regex `\w` on the ASCII text these filters see. -/
def wordChar (c : Char) : Bool := c.isAlphanum || c = '_'

/-- Whether `[\W]w[\W]` matches somewhere in the text: an occurrence of `w`
with a non-word character immediately on each side. `len(re.findall(p, s))
== 0` iff this is false. -/
def containsWord (w : List Char) : List Char → Bool
  | [] => false
  | a :: r =>
    (!wordChar a && w.isPrefixOf r &&
      (match r.drop w.length with
       | b :: _ => !wordChar b
       | [] => false)) ||
    containsWord w r

/-- Line 449: `lambda x: len(re.findall('[\W]dominant[\W]', str(x).lower()))
!= 0`. -/
def FilterOmimDominance (s : String) : Bool :=
  containsWord "dominant".data (s.data.map Char.toLower)

/-- The constant text line 450 actually applies its regex to:
`str(["Disease_description"]).lower()`, i.e. the stringified one-element
list literal (with its brackets and quotes), NOT the row's value. -/
def noInfoProbe : List Char :=
  ((Char.ofNat 91 :: Char.ofNat 39 :: "Disease_description".data) ++
    [Char.ofNat 39, Char.ofNat 93]).map Char.toLower

/-- Line 450: `lambda x: (x["pLi"] == '.') and (x["Disease_description"] ==
'.') or (len(re.findall('([\W]dominant[\W])|([\W]recessive[\W])',
str(["Disease_description"]).lower())) == 0)` — Python precedence parses this
as `(A and B) or C`, and `C` tests the constant `noInfoProbe` text. -/
def FilterNoInfo (pli dd : String) : Bool :=
  (pli == "." && dd == ".") ||
    !(containsWord "dominant".data noInfoProbe || containsWord "recessive".data noInfoProbe)

/-- Lines 440–442 `FilterpLi`: split on `';'`, parse every piece as a float;
false if any piece fails to parse, else true iff some piece is `>= 0.9`. -/
def FilterpLi (s : String) : Bool :=
  let rs := (pySplit ';' s.data).map (fun p => pyFloat (String.mk p))
  if rs.any (fun o => o.isNone) then false
  else rs.any (fun o => match o with
    | some v => pfGe v (.val 9 10)
    | none => false)

/-- The fields of one assembled result row that stage 2 (lines 557–563)
reads: `pLi`, `Disease_description`, the formatted genotype `VCF.GT`, and the
`Annofit.Compound` counts (always a `';'`-joined list of integers, built by
line 551; we carry them parsed). -/
structure Stage2Row where
  pli : String
  dd : String
  gt : String
  compound : List Int
deriving DecidableEq, Repr

/-- Line 563: a row survives stage 2 iff the disjunction of the five filters
of lines 558–562 holds for it. -/
def stage2Keeps (r : Stage2Row) : Bool :=
  r.compound.any (fun n => decide (1 < n)) || FilterpLi r.pli ||
    FilterOmimDominance r.dd || (r.gt == "HOMO") || FilterNoInfo r.pli r.dd

/-- Following the spec's words (the stage-2 characterization under test):
a row survives iff its compound count exceeds 1 for some gene, or its pLi
passes the consensus threshold, or its disease-description text contains a
dominant-inheritance marker, or its genotype is homozygous, or both pLi and
disease description are the sentinel. -/
def specStage2Survives (r : Stage2Row) : Bool :=
  r.compound.any (fun n => decide (1 < n)) || FilterpLi r.pli ||
    FilterOmimDominance r.dd || (r.gt == "HOMO") || (r.pli == "." && r.dd == ".")

/-! ## Auxiliary lemmas -/

theorem aux_char_range (c : Char) : c.toNat < 55296 ∨ (57343 < c.toNat ∧ c.toNat < 1114112) := by
  rcases c.valid with h | ⟨h1, h2⟩
  · exact Or.inl h
  · exact Or.inr ⟨h1, h2⟩

theorem aux_toNat_ofNat {n : Nat} (h : n < 55296) : (Char.ofNat n).toNat = n := by
  rw [Char.ofNat, dif_pos (Or.inl h)]
  rfl

theorem aux_hexVal_lower (m : Nat) : hexVal (hexCharLower m) = some (m % 16) := by
  have hk : m % 16 < 16 := Nat.mod_lt _ (by decide)
  unfold hexCharLower
  revert hk
  generalize m % 16 = k
  revert k
  decide

theorem aux_hexValUpper_upper (m : Nat) : hexValUpper (hexCharUpper m) = some (m % 16) := by
  have hk : m % 16 < 16 := Nat.mod_lt _ (by decide)
  unfold hexCharUpper
  revert hk
  generalize m % 16 = k
  revert k
  decide

theorem aux_hex4Val_hex4 {n : Nat} (h : n < 65536) :
    hex4Val (hexCharLower (n / 4096)) (hexCharLower (n / 256)) (hexCharLower (n / 16))
      (hexCharLower n) = some n := by
  unfold hex4Val
  rw [aux_hexVal_lower, aux_hexVal_lower, aux_hexVal_lower, aux_hexVal_lower]
  show some _ = some n
  congr 1
  omega

theorem aux_hexDecode_hexEncode : ∀ bs : List Nat, (∀ b ∈ bs, b < 256) →
    hexDecode (hexEncode bs) = some bs := by
  intro bs
  induction bs with
  | nil => intro; rfl
  | cons b r ih =>
    intro h
    have hb : b < 256 := h b (List.mem_cons_self _ _)
    simp only [hexEncode, hexDecode]
    rw [aux_hexValUpper_upper, aux_hexValUpper_upper, ih (fun x hx => h x (List.mem_cons_of_mem _ hx))]
    show some _ = some _
    congr 2
    omega

theorem aux_hexCharLower_ascii (m : Nat) : (hexCharLower m).toNat < 128 := by
  have hk : m % 16 < 16 := Nat.mod_lt _ (by decide)
  unfold hexCharLower
  split <;> rw [aux_toNat_ofNat (by omega)] <;> omega

theorem aux_hexCharUpper_ascii (m : Nat) : (hexCharUpper m).toNat < 128 := by
  have hk : m % 16 < 16 := Nat.mod_lt _ (by decide)
  unfold hexCharUpper
  split <;> rw [aux_toNat_ofNat (by omega)] <;> omega

theorem aux_hex4_ascii {n : Nat} : ∀ d ∈ hex4 n, d.toNat < 128 := by
  intro d hd
  simp only [hex4, List.mem_cons, List.not_mem_nil, or_false] at hd
  rcases hd with h | h | h | h <;> subst h <;> apply aux_hexCharLower_ascii

theorem aux_escChar_ascii (c : Char) : ∀ d ∈ escChar c, d.toNat < 128 := by
  intro d hd
  unfold escChar at hd
  split_ifs at hd with h1 h2 h3 h4 h5 h6 h7 h8 h9
  · simp only [List.mem_cons, List.not_mem_nil, or_false] at hd
    rcases hd with h | h <;> subst h <;> decide
  · simp only [List.mem_cons, List.not_mem_nil, or_false] at hd
    rcases hd with h | h <;> subst h <;> decide
  · simp only [List.mem_cons, List.not_mem_nil, or_false] at hd
    rcases hd with h | h <;> subst h <;> decide
  · simp only [List.mem_cons, List.not_mem_nil, or_false] at hd
    rcases hd with h | h <;> subst h <;> decide
  · simp only [List.mem_cons, List.not_mem_nil, or_false] at hd
    rcases hd with h | h <;> subst h <;> decide
  · simp only [List.mem_cons, List.not_mem_nil, or_false] at hd
    rcases hd with h | h <;> subst h <;> decide
  · simp only [List.mem_cons, List.not_mem_nil, or_false] at hd
    rcases hd with h | h <;> subst h <;> decide
  · simp only [List.mem_singleton] at hd
    subst hd
    omega
  · rcases List.mem_cons.mp hd with h | h
    · subst h; decide
    rcases List.mem_cons.mp h with h | h
    · subst h; decide
    exact aux_hex4_ascii d h
  · rcases List.mem_cons.mp hd with h | h
    · subst h; decide
    rcases List.mem_cons.mp h with h | h
    · subst h; decide
    rcases List.mem_append.mp h with h | h
    · exact aux_hex4_ascii d h
    rcases List.mem_cons.mp h with h | h
    · subst h; decide
    rcases List.mem_cons.mp h with h | h
    · subst h; decide
    exact aux_hex4_ascii d h

theorem aux_escList_ascii : ∀ s : List Char, ∀ d ∈ escList s, d.toNat < 128 := by
  intro s
  induction s with
  | nil => intro d hd; cases hd
  | cons c r ih =>
    intro d hd
    simp only [escList, List.mem_append] at hd
    rcases hd with h | h
    · exact aux_escChar_ascii c d h
    · exact ih d h

theorem aux_digitChar_toNat (n : Nat) : (digitChar n).toNat = 48 + n % 10 := by
  have : n % 10 < 10 := Nat.mod_lt _ (by decide)
  unfold digitChar
  rw [aux_toNat_ofNat (by omega)]

theorem aux_isDigit_iff (c : Char) : c.isDigit = true ↔ 48 ≤ c.toNat ∧ c.toNat ≤ 57 := by
  simp only [Char.isDigit, Bool.and_eq_true, decide_eq_true_eq]
  constructor
  · rintro ⟨h1, h2⟩
    exact ⟨h1, h2⟩
  · rintro ⟨h1, h2⟩
    exact ⟨h1, h2⟩

theorem aux_natDigitsAux_spec : ∀ fuel n : Nat, n < fuel →
    natDigitsAux fuel n ≠ [] ∧ (∀ d ∈ natDigitsAux fuel n, d.isDigit = true) ∧
      digitsVal (natDigitsAux fuel n) = n := by
  intro fuel
  induction fuel with
  | zero => intro n h; omega
  | succ f ih =>
    intro n h
    unfold natDigitsAux
    split
    · refine ⟨by simp, ?_, ?_⟩
      · intro d hd
        simp only [List.mem_singleton] at hd
        subst hd
        rw [aux_isDigit_iff, aux_digitChar_toNat]
        omega
      · show (0 * 10 + ((digitChar n).toNat - 48)) = n
        rw [aux_digitChar_toNat]
        omega
    · rename_i hn
      have hlt : n / 10 < f := by
        have := Nat.div_lt_self (by omega : 0 < n) (by omega : 1 < 10)
        omega
      obtain ⟨hne, hdig, hval⟩ := ih (n / 10) hlt
      refine ⟨by simp, ?_, ?_⟩
      · intro d hd
        rcases List.mem_append.mp hd with h | h
        · exact hdig d h
        · simp only [List.mem_singleton] at h
          subst h
          rw [aux_isDigit_iff, aux_digitChar_toNat]
          omega
      · show digitsVal (natDigitsAux f (n / 10) ++ [digitChar (n % 10)]) = n
        unfold digitsVal
        rw [List.foldl_append]
        show digitsVal (natDigitsAux f (n / 10)) * 10 + ((digitChar (n % 10)).toNat - 48) = n
        rw [hval, aux_digitChar_toNat]
        omega

theorem aux_natDigits_ne_nil (n : Nat) : natDigits n ≠ [] :=
  (aux_natDigitsAux_spec (n + 1) n (by omega)).1

theorem aux_natDigits_digits (n : Nat) : ∀ d ∈ natDigits n, d.isDigit = true :=
  (aux_natDigitsAux_spec (n + 1) n (by omega)).2.1

theorem aux_digitsVal_natDigits (n : Nat) : digitsVal (natDigits n) = n :=
  (aux_natDigitsAux_spec (n + 1) n (by omega)).2.2

theorem aux_natDigits_ascii (n : Nat) : ∀ d ∈ natDigits n, d.toNat < 128 := by
  intro d hd
  have := (aux_isDigit_iff d).mp (aux_natDigits_digits n d hd)
  omega

theorem aux_takeWhile_append {p : Char → Bool} : ∀ l1 l2 : List Char,
    (∀ c ∈ l1, p c = true) → (∀ c, l2.head? = some c → p c = false) →
    (l1 ++ l2).takeWhile p = l1 ∧ (l1 ++ l2).dropWhile p = l2 := by
  intro l1
  induction l1 with
  | nil =>
    intro l2 _ h2
    cases l2 with
    | nil => exact ⟨rfl, rfl⟩
    | cons c r =>
      have := h2 c rfl
      simp only [List.nil_append, List.takeWhile_cons, List.dropWhile_cons, this]
      exact ⟨rfl, rfl⟩
  | cons a l1 ih =>
    intro l2 h1 h2
    have ha : p a = true := h1 a (List.mem_cons_self _ _)
    obtain ⟨ht, hd⟩ := ih l2 (fun c hc => h1 c (List.mem_cons_of_mem _ hc)) h2
    simp only [List.cons_append, List.takeWhile_cons, List.dropWhile_cons, ha, ht, hd]
    exact ⟨rfl, rfl⟩

theorem aux_parseDigits_natDigits {n : Nat} {rest : List Char}
    (h : ∀ c, rest.head? = some c → c.isDigit = false) :
    parseDigits (natDigits n ++ rest) = some (n, rest) := by
  obtain ⟨ht, hd⟩ := aux_takeWhile_append (natDigits n) rest (aux_natDigits_digits n) h
  unfold parseDigits
  rw [ht, hd]
  obtain ⟨d, ds, hds⟩ := List.exists_cons_of_ne_nil (aux_natDigits_ne_nil n)
  rw [hds]
  show some (digitsVal (d :: ds), rest) = some (n, rest)
  rw [← hds, aux_digitsVal_natDigits]

theorem aux_escChar_ne_nil (c : Char) : (escChar c).length ≠ 0 := by
  unfold escChar
  split_ifs <;> simp [hex4]

theorem aux_escList_length (s : List Char) : s.length ≤ (escList s).length := by
  induction s with
  | nil => simp [escList]
  | cons c s ih =>
    have := aux_escChar_ne_nil c
    simp only [escList, List.length_cons, List.length_append]
    omega

theorem aux_hex4_exists {n : Nat} (h : n < 65536) :
    ∃ a b c d, hex4 n = [a, b, c, d] ∧ hex4Val a b c d = some n :=
  ⟨_, _, _, _, rfl, aux_hex4Val_hex4 h⟩

set_option maxRecDepth 8192 in
theorem aux_parseStrBodyF_escList : ∀ (s : List Char) (fuel : Nat) (rest : List Char),
    s.length < fuel → parseStrBodyF fuel (escList s ++ '"' :: rest) = some (s, rest) := by
  intro s
  induction s with
  | nil =>
    intro fuel rest h
    match fuel, h with
    | f + 1, _ => simp [escList, parseStrBodyF]
  | cons c s ih =>
    intro fuel rest h
    match fuel, h with
    | f + 1, h =>
    have hf : s.length < f := by
      simp only [List.length_cons] at h
      omega
    have ihr := ih f rest hf
    rw [escList, List.append_assoc]
    by_cases h1 : c = '"'
    · subst h1
      have he : escChar '"' = ['\\', '"'] := by decide
      rw [he]
      simp [parseStrBodyF, parseEsc, escNamed, ihr]
    by_cases h2 : c = '\\'
    · subst h2
      have he : escChar '\\' = ['\\', '\\'] := by decide
      rw [he]
      simp [parseStrBodyF, parseEsc, escNamed, ihr]
    by_cases h3 : c.toNat = 8
    · rw [escChar, if_neg h1, if_neg h2, if_pos h3]
      have hc : c = Char.ofNat 8 := by rw [← h3, Char.ofNat_toNat]
      simp [parseStrBodyF, parseEsc, escNamed, ihr, ← hc]
      exact hc.symm
    by_cases h4 : c.toNat = 12
    · rw [escChar, if_neg h1, if_neg h2, if_neg h3, if_pos h4]
      have hc : c = Char.ofNat 12 := by rw [← h4, Char.ofNat_toNat]
      simp [parseStrBodyF, parseEsc, escNamed, ihr, ← hc]
      exact hc.symm
    by_cases h5 : c.toNat = 10
    · rw [escChar, if_neg h1, if_neg h2, if_neg h3, if_neg h4, if_pos h5]
      have hc : c = '\n' := by
        have hx : c = Char.ofNat 10 := by rw [← h5, Char.ofNat_toNat]
        rw [hx]
      simp [parseStrBodyF, parseEsc, escNamed, ihr, ← hc]
      exact hc.symm
    by_cases h6 : c.toNat = 13
    · rw [escChar, if_neg h1, if_neg h2, if_neg h3, if_neg h4, if_neg h5, if_pos h6]
      have hc : c = '\r' := by
        have hx : c = Char.ofNat 13 := by rw [← h6, Char.ofNat_toNat]
        rw [hx]
      simp [parseStrBodyF, parseEsc, escNamed, ihr, ← hc]
      exact hc.symm
    by_cases h7 : c.toNat = 9
    · rw [escChar, if_neg h1, if_neg h2, if_neg h3, if_neg h4, if_neg h5, if_neg h6, if_pos h7]
      have hc : c = '\t' := by
        have hx : c = Char.ofNat 9 := by rw [← h7, Char.ofNat_toNat]
        rw [hx]
      simp [parseStrBodyF, parseEsc, escNamed, ihr, ← hc]
      exact hc.symm
    by_cases h8 : 32 ≤ c.toNat ∧ c.toNat ≤ 126
    · rw [escChar, if_neg h1, if_neg h2, if_neg h3, if_neg h4, if_neg h5, if_neg h6, if_neg h7,
        if_pos h8]
      have h32 : ¬ (c.toNat < 32) := by omega
      simp [parseStrBodyF, h1, h2, h32, ihr]
    by_cases h9 : c.toNat < 65536
    · rw [escChar, if_neg h1, if_neg h2, if_neg h3, if_neg h4, if_neg h5, if_neg h6, if_neg h7,
        if_neg h8, if_pos h9]
      have hx := aux_hex4Val_hex4 h9
      have hs1 : ¬ (55296 ≤ c.toNat ∧ c.toNat ≤ 56319) := by
        rcases aux_char_range c with hr | hr <;> omega
      have hs2 : ¬ (56320 ≤ c.toNat ∧ c.toNat ≤ 57343) := by
        rcases aux_char_range c with hr | hr <;> omega
      simp only [hex4, List.cons_append, List.nil_append]
      simp [parseStrBodyF, parseEsc, parseU, hx, hs1, hs2, ihr, Char.ofNat_toNat]
    · rw [escChar, if_neg h1, if_neg h2, if_neg h3, if_neg h4, if_neg h5, if_neg h6, if_neg h7,
        if_neg h8, if_neg h9]
      have hup : c.toNat < 1114112 := by
        rcases aux_char_range c with hr | hr <;> omega
      have hmod : (c.toNat - 65536) % 1024 < 1024 := Nat.mod_lt _ (by decide)
      set hi := 55296 + (c.toNat - 65536) / 1024 with hhi
      set lo := 56320 + (c.toNat - 65536) % 1024 with hlo
      have hhib : hi < 65536 := by omega
      have hlob : lo < 65536 := by omega
      have hr1 : 55296 ≤ hi ∧ hi ≤ 56319 := by omega
      have hr2 : 56320 ≤ lo ∧ lo ≤ 57343 := by omega
      obtain ⟨a1, b1, c1, d1, he1, hv1⟩ := aux_hex4_exists hhib
      obtain ⟨a2, b2, c2, d2, he2, hv2⟩ := aux_hex4_exists hlob
      rw [he1, he2]
      have harith : 65536 + (hi - 55296) * 1024 + (lo - 56320) = c.toNat := by omega
      generalize escList s ++ '"' :: rest = t at ihr ⊢
      simp only [List.cons_append, List.nil_append, List.append_assoc]
      simp [parseStrBodyF, parseEsc, parseU, parseLowSur, hv1, hv2, hr1, hr2, ihr, harith,
        Char.ofNat_toNat]

theorem aux_parseStrBody_escList (s rest : List Char) :
    parseStrBody (escList s ++ '"' :: rest) = some (s, rest) := by
  have hlen := aux_escList_length s
  apply aux_parseStrBodyF_escList
  simp only [List.length_append, List.length_cons]
  omega

theorem aux_char_eq_iff (c d : Char) : c = d ↔ c.toNat = d.toNat :=
  ⟨fun h => h ▸ rfl, fun h => Char.ext (UInt32.ext h)⟩

theorem aux_jsonSpace_iff (c : Char) :
    jsonSpace c = true ↔ c.toNat = 32 ∨ c.toNat = 9 ∨ c.toNat = 10 ∨ c.toNat = 13 := by
  simp only [jsonSpace, Bool.or_eq_true, decide_eq_true_eq, aux_char_eq_iff]
  show ((c.toNat = 32 ∨ c.toNat = 9) ∨ c.toNat = 10) ∨ c.toNat = 13 ↔ _
  tauto

theorem aux_skipSpaces_cons {c : Char} {l : List Char} (h : jsonSpace c = false) :
    skipSpaces (c :: l) = c :: l := by
  simp [skipSpaces, List.dropWhile_cons, h]

theorem aux_skipSpaces_of_head {l : List Char}
    (h : ∀ c, l.head? = some c → jsonSpace c = false) : skipSpaces l = l := by
  cases l with
  | nil => rfl
  | cons c r => exact aux_skipSpaces_cons (h c rfl)

theorem aux_skipSpaces_space (l : List Char) : skipSpaces (' ' :: l) = skipSpaces l := by
  simp [skipSpaces, List.dropWhile_cons, jsonSpace]

theorem aux_headIsDigit_prop {l : List Char} (h : headIsDigit l = false) :
    ∀ c, l.head? = some c → c.isDigit = false := by
  cases l with
  | nil => intro c hc; cases hc
  | cons c r =>
    intro c' hc'
    cases hc'
    exact h

theorem aux_parseVal_str (s : String) (rest : List Char) :
    parseVal (dumpVal (.jstr s) ++ rest) = some (.jstr s, rest) := by
  show parseVal (('"' :: escList s.data ++ ['"']) ++ rest) = _
  simp only [List.cons_append, List.append_assoc, List.singleton_append]
  rw [parseVal]
  simp [aux_parseStrBody_escList]

theorem aux_parseVal_int (n : Int) (rest : List Char) (h : headIsDigit rest = false) :
    parseVal (dumpVal (.jint n) ++ rest) = some (.jint n, rest) := by
  have hrest := aux_headIsDigit_prop h
  show parseVal (intChars n ++ rest) = _
  unfold intChars
  by_cases hn : n < 0
  · rw [if_pos hn]
    have hd := @aux_parseDigits_natDigits n.natAbs rest hrest
    simp [parseVal, hd, abs_of_neg hn]
  · rw [if_neg hn]
    obtain ⟨d, ds, hds⟩ := List.exists_cons_of_ne_nil (aux_natDigits_ne_nil n.toNat)
    have hdig : d.isDigit = true := aux_natDigits_digits _ d (by rw [hds]; exact List.mem_cons_self _ _)
    have hd1 : ¬ d = '"' := by
      intro h'
      rw [h'] at hdig
      exact absurd hdig (by decide)
    have hd2 : ¬ d = '-' := by
      intro h'
      rw [h'] at hdig
      exact absurd hdig (by decide)
    rw [hds, List.cons_append, parseVal]
    rw [if_neg hd1, if_neg hd2, if_pos hdig]
    rw [← List.cons_append, ← hds, aux_parseDigits_natDigits hrest]
    have htn : (n.toNat : Int) = n := by omega
    simp [htn]

theorem aux_parseVal_dump (v : JVal) (rest : List Char) (h : headIsDigit rest = false) :
    parseVal (dumpVal v ++ rest) = some (v, rest) := by
  cases v with
  | jstr s => exact aux_parseVal_str s rest
  | jint n => exact aux_parseVal_int n rest h

theorem aux_skipSpaces_dumpVal (v : JVal) (tail : List Char) :
    skipSpaces (dumpVal v ++ tail) = dumpVal v ++ tail := by
  apply aux_skipSpaces_of_head
  intro c hc
  cases v with
  | jstr s =>
    have : dumpVal (JVal.jstr s) ++ tail = '"' :: (escList s.data ++ ['"'] ++ tail) := by
      show ('"' :: escList s.data ++ ['"']) ++ tail = _
      simp [List.cons_append, List.append_assoc]
    rw [this] at hc
    cases hc
    decide
  | jint n =>
    have hi : dumpVal (JVal.jint n) = intChars n := rfl
    rw [hi] at hc
    unfold intChars at hc
    by_cases hn : n < 0
    · rw [if_pos hn] at hc
      cases hc
      decide
    · rw [if_neg hn] at hc
      obtain ⟨d, ds, hds⟩ := List.exists_cons_of_ne_nil (aux_natDigits_ne_nil n.toNat)
      have hdig : d.isDigit = true :=
        aux_natDigits_digits _ d (by rw [hds]; exact List.mem_cons_self _ _)
      rw [hds] at hc
      cases hc
      rw [aux_isDigit_iff] at hdig
      rw [← Bool.not_eq_true, aux_jsonSpace_iff]
      omega

theorem aux_dumpEntry_eq (k : String) (v : JVal) (x : List Char) :
    dumpEntry (k, v) ++ x = '"' :: (escList k.data ++ '"' :: (':' :: ' ' :: (dumpVal v ++ x))) := by
  show (('"' :: escList k.data ++ ['"']) ++ ':' :: ' ' :: dumpVal v) ++ x = _
  simp [List.cons_append, List.append_assoc]

theorem aux_parseEntryStep (k : String) (v : JVal) (c3 : Char) (tail : List Char)
    (h3 : jsonSpace c3 = false) (hd : headIsDigit (c3 :: tail) = false) :
    parseEntryStep (dumpEntry (k, v) ++ c3 :: tail) =
      (if c3 = ',' then some ((k, v), (true, skipSpaces tail))
       else if c3 = '\x7d' then some ((k, v), (false, tail)) else none) := by
  have hsk1 : skipSpaces (':' :: ' ' :: (dumpVal v ++ c3 :: tail)) =
      ':' :: ' ' :: (dumpVal v ++ c3 :: tail) := aux_skipSpaces_cons (by decide)
  have hsk2 : skipSpaces (' ' :: (dumpVal v ++ c3 :: tail)) = dumpVal v ++ c3 :: tail := by
    rw [aux_skipSpaces_space]
    exact aux_skipSpaces_dumpVal v _
  have hpv : parseVal (dumpVal v ++ c3 :: tail) = some (v, c3 :: tail) :=
    aux_parseVal_dump v _ hd
  have hsk3 : skipSpaces (c3 :: tail) = c3 :: tail := aux_skipSpaces_cons h3
  rw [aux_dumpEntry_eq, parseEntryStep]
  simp only [aux_parseStrBody_escList, hsk1, hsk2, hpv, hsk3, reduceIte]

theorem aux_dumpEntry_head (e : String × JVal) : ∃ t, dumpEntry e = '"' :: t := by
  obtain ⟨k, v⟩ := e
  refine ⟨escList k.data ++ ['"'] ++ (':' :: ' ' :: dumpVal v), ?_⟩
  show ('"' :: escList k.data ++ ['"']) ++ ':' :: ' ' :: dumpVal v = _
  simp [List.cons_append, List.append_assoc]

theorem aux_dumpEntry_length (e : String × JVal) : 1 ≤ (dumpEntry e).length := by
  obtain ⟨t, ht⟩ := aux_dumpEntry_head e
  rw [ht]
  simp

theorem aux_dumpEntries_cons_ne (e : String × JVal) (es : Dict) (hne : es ≠ []) :
    dumpEntries (e :: es) = dumpEntry e ++ ',' :: ' ' :: dumpEntries es := by
  cases es with
  | nil => exact absurd rfl hne
  | cons e2 es2 => rfl

theorem aux_dumpEntries_head (e : String × JVal) (es : Dict) :
    ∃ t, dumpEntries (e :: es) = '"' :: t := by
  obtain ⟨t, ht⟩ := aux_dumpEntry_head e
  cases es with
  | nil => exact ⟨t, ht⟩
  | cons e2 es2 =>
    refine ⟨t ++ ',' :: ' ' :: dumpEntries (e2 :: es2), ?_⟩
    rw [aux_dumpEntries_cons_ne e (e2 :: es2) (by simp), ht, List.cons_append]

theorem aux_dumpEntries_length (m : Dict) : m.length ≤ (dumpEntries m).length := by
  induction m with
  | nil => simp [dumpEntries]
  | cons e es ih =>
    cases es with
    | nil => simpa [dumpEntries] using aux_dumpEntry_length e
    | cons e2 es2 =>
      rw [aux_dumpEntries_cons_ne e (e2 :: es2) (by simp)]
      have h1 := aux_dumpEntry_length e
      simp only [List.length_append, List.length_cons] at *
      omega

theorem aux_parseEntries_dump : ∀ (m : Dict) (fuel : Nat) (tail : List Char), m ≠ [] →
    m.length ≤ fuel → parseEntries fuel (dumpEntries m ++ '\x7d' :: tail) = some (m, tail) := by
  intro m
  induction m with
  | nil => intro fuel tail h _; exact absurd rfl h
  | cons e es ih =>
    intro fuel tail _ hlen
    obtain ⟨k, v⟩ := e
    match fuel, hlen with
    | f + 1, hlen =>
    cases es with
    | nil =>
      rw [parseEntries]
      rw [show dumpEntries [(k, v)] ++ '\x7d' :: tail = dumpEntry (k, v) ++ '\x7d' :: tail
        from rfl]
      rw [aux_parseEntryStep k v '\x7d' tail (by decide) (by rfl)]
      simp
    | cons e2 es2 =>
      rw [parseEntries]
      rw [show dumpEntries ((k, v) :: e2 :: es2) ++ '\x7d' :: tail =
          dumpEntry (k, v) ++ ',' :: (' ' :: (dumpEntries (e2 :: es2) ++ '\x7d' :: tail)) by
        rw [aux_dumpEntries_cons_ne (k, v) (e2 :: es2) (by simp)]
        simp [List.append_assoc]]
      rw [aux_parseEntryStep k v ',' _ (by decide) (by rfl)]
      obtain ⟨t, ht⟩ := aux_dumpEntries_head e2 es2
      have hsk : skipSpaces (' ' :: (dumpEntries (e2 :: es2) ++ '\x7d' :: tail)) =
          dumpEntries (e2 :: es2) ++ '\x7d' :: tail := by
        rw [aux_skipSpaces_space, ht, List.cons_append]
        exact aux_skipSpaces_cons (by decide)
      have hrec := ih f tail (by simp) (by
        simp only [List.length_cons] at hlen ⊢
        omega)
      simp only [reduceIte, hsk, hrec]

theorem aux_parseObj_dump (m : Dict) (tail : List Char) :
    parseObj (dumpObj m ++ tail) = some (m, tail) := by
  rw [show dumpObj m ++ tail = '\x7b' :: (dumpEntries m ++ '\x7d' :: tail) by
    simp [dumpObj, List.cons_append, List.append_assoc]]
  cases m with
  | nil => rfl
  | cons e es =>
    obtain ⟨t, ht⟩ := aux_dumpEntries_head e es
    have hskip : skipSpaces ('"' :: (t ++ '\x7d' :: tail)) = '"' :: (t ++ '\x7d' :: tail) :=
      aux_skipSpaces_cons (by decide)
    have hne : ¬ ('"' : Char) = '\x7d' := by decide
    rw [parseObj]
    simp only [ht, List.cons_append, hskip, hne, reduceIte]
    rw [show ('"' :: (t ++ '\x7d' :: tail) : List Char) = dumpEntries (e :: es) ++ '\x7d' :: tail
      by rw [ht, List.cons_append]]
    apply aux_parseEntries_dump _ _ _ (by simp)
    have h1 := aux_dumpEntries_length (e :: es)
    simp only [List.length_append]
    omega

theorem aux_jsonLoads_dump (m : Dict) : jsonLoads (dumpObj m) = some m := by
  rw [jsonLoads]
  rw [show skipSpaces (dumpObj m) = dumpObj m from aux_skipSpaces_cons (by decide)]
  rw [show dumpObj m = dumpObj m ++ ([] : List Char) by simp, aux_parseObj_dump]
  rfl

theorem aux_jsonStrChars_ascii (s : List Char) : ∀ c ∈ jsonStrChars s, c.toNat < 128 := by
  intro c hc
  rcases List.mem_cons.mp hc with h | h
  · subst h; decide
  rcases List.mem_append.mp h with h | h
  · exact aux_escList_ascii s c h
  · simp only [List.mem_singleton] at h
    subst h; decide

theorem aux_dumpVal_ascii (v : JVal) : ∀ c ∈ dumpVal v, c.toNat < 128 := by
  intro c hc
  cases v with
  | jstr s => exact aux_jsonStrChars_ascii s.data c hc
  | jint n =>
    have hc2 : c ∈ intChars n := hc
    unfold intChars at hc2
    split at hc2
    · rcases List.mem_cons.mp hc2 with h | h
      · subst h; decide
      · exact aux_natDigits_ascii _ c h
    · exact aux_natDigits_ascii _ c hc2

theorem aux_dumpEntry_ascii (e : String × JVal) : ∀ c ∈ dumpEntry e, c.toNat < 128 := by
  intro c hc
  obtain ⟨k, v⟩ := e
  rcases List.mem_append.mp hc with h | h
  · exact aux_jsonStrChars_ascii k.data c h
  rcases List.mem_cons.mp h with h | h
  · subst h; decide
  rcases List.mem_cons.mp h with h | h
  · subst h; decide
  · exact aux_dumpVal_ascii v c h

theorem aux_dumpEntries_ascii : ∀ m : Dict, ∀ c ∈ dumpEntries m, c.toNat < 128 := by
  intro m
  induction m with
  | nil => intro c hc; cases hc
  | cons e es ih =>
    intro c hc
    cases es with
    | nil => exact aux_dumpEntry_ascii e c hc
    | cons e2 es2 =>
      rw [aux_dumpEntries_cons_ne e (e2 :: es2) (by simp)] at hc
      rcases List.mem_append.mp hc with h | h
      · exact aux_dumpEntry_ascii e c h
      rcases List.mem_cons.mp h with h | h
      · subst h; decide
      rcases List.mem_cons.mp h with h | h
      · subst h; decide
      · exact ih c h

theorem aux_dumpObj_ascii (m : Dict) : ∀ c ∈ dumpObj m, c.toNat < 128 := by
  intro c hc
  rcases List.mem_cons.mp hc with h | h
  · subst h; decide
  rcases List.mem_append.mp h with h | h
  · exact aux_dumpEntries_ascii m c h
  · simp only [List.mem_singleton] at h
    subst h; decide

theorem aux_asciiDecode_asciiBytes : ∀ l : List Char, (∀ c ∈ l, c.toNat < 128) →
    asciiDecode (asciiBytes l) = some l := by
  intro l
  induction l with
  | nil => intro; rfl
  | cons c r ih =>
    intro h
    have hc : c.toNat < 128 := h c (List.mem_cons_self _ _)
    show asciiDecode (c.toNat :: asciiBytes r) = _
    rw [asciiDecode, if_pos hc, ih (fun x hx => h x (List.mem_cons_of_mem _ hx))]
    rw [Char.ofNat_toNat]

theorem aux_hexCharUpper_toNat (m : Nat) :
    (hexCharUpper m).toNat = if m % 16 < 10 then 48 + m % 16 else 55 + m % 16 := by
  have hk : m % 16 < 16 := Nat.mod_lt _ (by decide)
  unfold hexCharUpper
  by_cases h : m % 16 < 10
  · rw [if_pos h, if_pos h, aux_toNat_ofNat (by omega)]
  · rw [if_neg h, if_neg h, aux_toNat_ofNat (by omega)]

theorem aux_hexEncode_range : ∀ bs : List Nat, ∀ c ∈ hexEncode bs,
    (48 ≤ c.toNat ∧ c.toNat ≤ 57) ∨ (65 ≤ c.toNat ∧ c.toNat ≤ 70) := by
  intro bs
  induction bs with
  | nil => intro c hc; cases hc
  | cons b r ih =>
    intro c hc
    have hrange : ∀ m : Nat, (48 ≤ (hexCharUpper m).toNat ∧ (hexCharUpper m).toNat ≤ 57) ∨
        (65 ≤ (hexCharUpper m).toNat ∧ (hexCharUpper m).toNat ≤ 70) := by
      intro m
      have hk : m % 16 < 16 := Nat.mod_lt _ (by decide)
      rw [aux_hexCharUpper_toNat]
      split <;> omega
    rcases List.mem_cons.mp hc with h | h
    · subst h; exact hrange _
    rcases List.mem_cons.mp h with h | h
    · subst h; exact hrange _
    · exact ih c h

theorem aux_pySplit_no_sep (sep : Char) : ∀ l : List Char, (∀ c ∈ l, ¬ c = sep) →
    pySplit sep l = [l] := by
  intro l
  induction l with
  | nil => intro; rfl
  | cons c r ih =>
    intro h
    rw [pySplit, if_neg (h c (List.mem_cons_self _ _)), ih (fun x hx => h x (List.mem_cons_of_mem _ hx))]

theorem aux_decodeCell_encodeAttr (m : Dict) : decodeCell (encodeAttr m) = some [m] := by
  have hascii := aux_dumpObj_ascii m
  have hB : ∀ b ∈ asciiBytes (dumpObj m), b < 256 := by
    intro b hb
    obtain ⟨c, hc, rfl⟩ := List.mem_map.mp hb
    have := hascii c hc
    omega
  have hrange := aux_hexEncode_range (asciiBytes (dumpObj m))
  have hHeq : ∀ c ∈ hexEncode (asciiBytes (dumpObj m)), ¬ c = '=' := by
    intro c hc hcontra
    have h61 : c.toNat = 61 := (aux_char_eq_iff c '=').mp hcontra
    rcases hrange c hc with h | h <;> omega
  have hHcomma : ∀ c ∈ hexEncode (asciiBytes (dumpObj m)), ¬ c = ',' := by
    intro c hc hcontra
    have h44 : c.toNat = 44 := (aux_char_eq_iff c ',').mp hcontra
    rcases hrange c hc with h | h <;> omega
  have h0 : pySplit '=' (hexEncode (asciiBytes (dumpObj m))) =
      [hexEncode (asciiBytes (dumpObj m))] := aux_pySplit_no_sep '=' _ hHeq
  have h1 : pySplit '=' ('=' :: hexEncode (asciiBytes (dumpObj m))) =
      [] :: [hexEncode (asciiBytes (dumpObj m))] := by
    rw [pySplit, if_pos rfl, h0]
  have h2 : pySplit '=' ('D' :: '=' :: hexEncode (asciiBytes (dumpObj m))) =
      ['D'] :: [hexEncode (asciiBytes (dumpObj m))] := by
    rw [pySplit, if_neg (by decide), h1]
  have h3 : pySplit '=' ('I' :: 'D' :: '=' :: hexEncode (asciiBytes (dumpObj m))) =
      ['I', 'D'] :: [hexEncode (asciiBytes (dumpObj m))] := by
    rw [pySplit, if_neg (by decide), h2]
  have h4 : pySplit ',' (hexEncode (asciiBytes (dumpObj m))) =
      [hexEncode (asciiBytes (dumpObj m))] := aux_pySplit_no_sep ',' _ hHcomma
  have hdec : decodeOne (hexEncode (asciiBytes (dumpObj m))) = some m := by
    simp only [decodeOne, aux_hexDecode_hexEncode _ hB, aux_asciiDecode_asciiBytes _ hascii,
      aux_jsonLoads_dump]
  show decodeCell ('I' :: 'D' :: '=' :: hexEncode (asciiBytes (dumpObj m))) = some [m]
  simp only [decodeCell, h3, h4, optMapM, hdec]

/-- **C1.** Encode/decode round-trip: for every key/value map of non-anchor
columns of a database row, encoding it (JSON-serializing the map,
hex-encoding the bytes, prefixing the `ID=` tag, as `Tsv2Gff3` line 259 does)
and then decoding it (stripping the tag, hex-decoding, JSON-parsing, as
`CureBase` line 320 does) reproduces exactly the original key/value map (as
the sole element of the decoded overlap list), and the encoding is injective:
distinct maps yield distinct encoded payloads. -/
theorem claim1_encode_decode_roundtrip :
    (∀ m : Dict, decodeCell (encodeAttr m) = some [m]) ∧
    (∀ m1 m2 : Dict, encodeAttr m1 = encodeAttr m2 → m1 = m2) := by
  refine ⟨aux_decodeCell_encodeAttr, ?_⟩
  intro m1 m2 heq
  have h1 := aux_decodeCell_encodeAttr m1
  rw [heq, aux_decodeCell_encodeAttr m2] at h1
  simpa using h1.symm

/-- **C1 witness.** The round trip and injectivity instantiated at concrete
payloads. -/
theorem claim1_witness :
    decodeCell (encodeAttr [("Tier", JVal.jstr "1")]) = some [[("Tier", JVal.jstr "1")]] ∧
    ([("MIM", JVal.jint 104300)] : Dict) = [("MIM", JVal.jint 104300)] :=
  ⟨claim1_encode_decode_roundtrip.1 _, claim1_encode_decode_roundtrip.2 _ _ rfl⟩

/-- **C4.** For every input row the stage-2 predicate `FilterNoInfo` evaluates
to true, because its second disjunct applies the dominant/recessive regular
expression to the constant string `str(["Disease_description"])` (which never
matches) rather than to the row's disease-description value; consequently the
stage-2 dominance filter (line 563) retains every row of its input, regardless
of compound count, pLi, dominance markers, or genotype. -/
theorem claim4_stage2_retains_all :
    (∀ pli dd : String, FilterNoInfo pli dd = true) ∧
    (∀ r : Stage2Row, stage2Keeps r = true) := by
  have hprobe : (containsWord "dominant".data noInfoProbe ||
      containsWord "recessive".data noInfoProbe) = false := by decide
  constructor
  · intro pli dd
    rw [FilterNoInfo, hprobe]
    simp
  · intro r
    rw [stage2Keeps, FilterNoInfo, hprobe]
    simp

/-- **C3.** The claimed stage-2 characterization fails on the code: at the
failing input (pLi `"0.5"`, disease description without inheritance markers,
heterozygous genotype, compound count 1) the claimed predicate rejects the
row, but the code's stage-2 filter keeps it (its `FilterNoInfo` disjunct
tests a constant string and is always true). The claim matches the spec's
evident intent; the code's `str(["Disease_description"])` is a slip. -/
theorem claim3_stage2_code_bug :
    stage2Keeps ⟨"0.5", "unrelated disease text", "0/1", [1]⟩ = true ∧
    specStage2Survives ⟨"0.5", "unrelated disease text", "0/1", [1]⟩ = false := by
  constructor
  · decide
  · decide

/-- **C5.** No-overlap sentinel: for every variant row and every configured
custom database, if the database produced zero overlapping intervals for
that variant — `cell = none`, covering both the case where the database was
observed for other variants (`anyObserved = true`) and the case where its
expected columns were never observed at all (`anyObserved = false`) — then
after the `CureBase` merge every merged column belonging to that database
equals the sentinel `"."` for that variant. -/
theorem claim5_no_overlap_sentinel :
    ∀ (dbName : String) (attrCols : List String) (anyObserved : Bool),
      dbMergedRow dbName attrCols anyObserved none =
        some ((dbExpectedCols dbName attrCols).map (fun c => (c, "."))) := by
  intro n a o
  cases o <;> rfl

/-- **C8.** Genotype normalization: `FormatGenotype` returns the sentinel
`"."` when the string does not split on `'/'` into exactly two integer allele
indices; returns `"HOMO"` when the two indices are equal and non-zero; and
returns the input string unchanged otherwise; in particular `"1/1" → "HOMO"`,
`"0/1" → "0/1"`, `"a/b" → "."`. -/
theorem claim8_format_genotype :
    (∀ (s : String) (a b : Int),
      (pySplit '/' s.data).map (fun p => pyIntChars p) = [some a, some b] →
      FormatGenotype s = (if a = b ∧ a ≠ 0 then "HOMO" else s)) ∧
    (∀ s : String,
      (∀ a b : Int, (pySplit '/' s.data).map (fun p => pyIntChars p) ≠ [some a, some b]) →
      FormatGenotype s = ".") ∧
    FormatGenotype "1/1" = "HOMO" ∧ FormatGenotype "0/1" = "0/1" ∧ FormatGenotype "a/b" = "." := by
  refine ⟨?_, ?_, by decide, by decide, by decide⟩
  · intro s a b h
    rw [FormatGenotype, h]
  · intro s h
    rcases hm : (pySplit '/' s.data).map (fun p => pyIntChars p) with _ | ⟨o1, _ | ⟨o2, l2⟩⟩
    · rw [FormatGenotype, hm]
    · rw [FormatGenotype, hm]
      cases o1 <;> rfl
    · cases l2 with
      | cons o3 l3 =>
        rw [FormatGenotype, hm]
        cases o1 <;> cases o2 <;> rfl
      | nil =>
        cases o1 with
        | none =>
          rw [FormatGenotype, hm]
        | some a =>
          cases o2 with
          | none => rw [FormatGenotype, hm]
          | some b => exact absurd hm (h a b)

/-- **C8 witness.** The characterization instantiated at `"2/2"`. -/
theorem claim8_witness : FormatGenotype "2/2" = "HOMO" := by
  have h := claim8_format_genotype.1 "2/2" 2 2 (by decide)
  rw [h, if_pos ⟨rfl, by decide⟩]

/-- **C9.** VCF per-sample metadata zip: `FormatVcfMetadata` splits the
format string and the sample-value string on `':'`; when the two lists have
equal length it returns the identity field followed by the zipped
`VCF.`-prefixed name/value fields, and when their lengths differ it returns
only the identity field, silently discarding every decoded metadata field
without raising. -/
theorem claim9_vcf_metadata_zip :
    ∀ header dataStr nameV : String,
      ((pySplit ':' header.data).length = (pySplit ':' dataStr.data).length →
        FormatVcfMetadata header dataStr nameV =
          ("Name", nameV) ::
            ((pySplit ':' header.data).map (fun h => "VCF." ++ String.mk h)).zip
              ((pySplit ':' dataStr.data).map String.mk)) ∧
      ((pySplit ':' header.data).length ≠ (pySplit ':' dataStr.data).length →
        FormatVcfMetadata header dataStr nameV = [("Name", nameV)]) := by
  intro h d n
  constructor
  · intro hl
    simp [FormatVcfMetadata, hl]
  · intro hl
    simp [FormatVcfMetadata, hl]

/-- **C9 witness.** Both branches at concrete metadata. -/
theorem claim9_witness :
    FormatVcfMetadata "GT:AD" "0/1:7,2" "row1" =
      [("Name", "row1"), ("VCF.GT", "0/1"), ("VCF.AD", "7,2")] ∧
    FormatVcfMetadata "GT:AD:DP" "0/1:7" "row2" = [("Name", "row2")] := by
  constructor
  · have h := (claim9_vcf_metadata_zip "GT:AD" "0/1:7,2" "row1").1 (by decide)
    rw [h]
    decide
  · have h := (claim9_vcf_metadata_zip "GT:AD:DP" "0/1:7" "row2").2 (by decide)
    rw [h]

/-- **C10 counterexample.** `FormatPopulationFreq "nan"` is indeed NaN rather
than `-1.0`, but a row carrying a `"nan"` frequency is NOT excluded in
general: pandas' max skips NaN, so with columns `["nan", "."]` the row-level
maximum is `-1.0` and the ceiling filter still passes the row, contradicting
the claim's "excluding the row". -/
theorem claim10_counterexample :
    FormatPopulationFreq "nan" = PyFloat.nan ∧
    popMaxFilter (PyFloat.val 5 100) ["nan", "."] = true := by
  constructor
  · decide
  · decide

/-- **C10 (amended).** `FormatPopulationFreq` returns `-1.0` whenever
`float()` parsing raises and the parsed value otherwise; `"nan"`, `"inf"`,
`"-inf"` parse successfully (so an unknown frequency recorded as `"nan"`
becomes NaN, not `-1.0`); NaN fails the `<`-ceiling comparison against any
threshold; and the row is excluded when EVERY population column parses to
NaN (pandas' max skips NaN, so only an all-NaN row yields a NaN maximum). -/
theorem claim10_popfreq_amended :
    (∀ s : String, pyFloat s = none → FormatPopulationFreq s = PyFloat.val (-1) 1) ∧
    (∀ (s : String) (v : PyFloat), pyFloat s = some v → FormatPopulationFreq s = v) ∧
    pyFloat "nan" = some PyFloat.nan ∧ pyFloat "inf" = some PyFloat.pinf ∧
    pyFloat "-inf" = some PyFloat.ninf ∧ pyFloat "not_a_number" = none ∧
    (∀ t : PyFloat, pfLt PyFloat.nan t = false) ∧
    (∀ (thresh : PyFloat) (cols : List String), cols ≠ [] →
      (∀ c ∈ cols, FormatPopulationFreq c = PyFloat.nan) →
      popMaxFilter thresh cols = false) := by
  refine ⟨?_, ?_, by decide, by decide, by decide, by decide, ?_, ?_⟩
  · intro s h
    simp only [FormatPopulationFreq, h]
  · intro s v h
    simp only [FormatPopulationFreq, h]
  · intro t
    cases t <;> rfl
  · intro thresh cols hne hall
    have hfilter : (cols.map FormatPopulationFreq).filter (fun v => !isNan v) = [] := by
      rw [List.filter_eq_nil_iff]
      intro a ha
      obtain ⟨c, hc, rfl⟩ := List.mem_map.mp ha
      rw [hall c hc]
      decide
    rw [popMaxFilter, popMax, hfilter]
    cases thresh <;> rfl

/-- **C10 witness.** The all-NaN exclusion instantiated at one column. -/
theorem claim10_witness : popMaxFilter (PyFloat.val 1 2) ["nan"] = false :=
  claim10_popfreq_amended.2.2.2.2.2.2.2 (PyFloat.val 1 2) ["nan"] (by decide) (by
    intro c hc
    simp only [List.mem_singleton] at hc
    subst hc
    decide)

/-! ### Order facts for the `Tsv2Gff3` sort and the value sort of line 331 -/

theorem aux_rowLe_total (chroms : List String) :
    ∀ a b : DbRow, rowLe chroms a b ∨ rowLe chroms b a := by
  intro a b
  unfold rowLe
  rcases Nat.lt_trichotomy (rankOf chroms a.chrom) (rankOf chroms b.chrom) with h | h | h
  · exact Or.inl (Or.inl h)
  · rcases Int.le_total a.start b.start with hs | hs
    · exact Or.inl (Or.inr ⟨h, hs⟩)
    · exact Or.inr (Or.inr ⟨h.symm, hs⟩)
  · exact Or.inr (Or.inl h)

theorem aux_rowLe_trans (chroms : List String) :
    ∀ a b c : DbRow, rowLe chroms a b → rowLe chroms b c → rowLe chroms a c := by
  intro a b c hab hbc
  unfold rowLe at *
  rcases hab with h1 | ⟨h1, h1s⟩ <;> rcases hbc with h2 | ⟨h2, h2s⟩
  · exact Or.inl (by omega)
  · exact Or.inl (by omega)
  · exact Or.inl (by omega)
  · exact Or.inr ⟨by omega, le_trans h1s h2s⟩

instance rowLe.instIsTotal (chroms : List String) : IsTotal DbRow (rowLe chroms) :=
  ⟨aux_rowLe_total chroms⟩

instance rowLe.instIsTrans (chroms : List String) : IsTrans DbRow (rowLe chroms) :=
  ⟨aux_rowLe_trans chroms⟩

theorem aux_clampStart_mono {x y : Int} (h : x ≤ y) : clampStart x ≤ clampStart y := by
  unfold clampStart
  split_ifs <;> omega

theorem aux_rowLe_clamp (chroms : List String) {a b : DbRow} (h : rowLe chroms a b) :
    rowLe chroms { a with start := clampStart a.start } { b with start := clampStart b.start } := by
  unfold rowLe at *
  rcases h with h | ⟨h1, h2⟩
  · exact Or.inl h
  · exact Or.inr ⟨h1, aux_clampStart_mono h2⟩

/-- **C7.** Sort invariant of the interval encoder: for every reference index
and database table accepted without error (line 253: the contig-filtered
table is nonempty), the sequence of records `Tsv2Gff3` emits is non-decreasing
in the pair (reference contig rank, start) — contig rank being the contig's
declaration position in the reference index (`rankOf`), not lexical order. -/
theorem claim7_sort_invariant :
    ∀ (chroms : List String) (rows : List DbRow),
      rows.filter (fun r => chroms.contains r.chrom) ≠ [] →
      List.Sorted (rowLe chroms) (tsv2gff3Emitted chroms rows) := by
  intro chroms rows _
  unfold tsv2gff3Emitted
  have hs : List.Sorted (rowLe chroms)
      (List.insertionSort (rowLe chroms) (rows.filter (fun r => chroms.contains r.chrom))) :=
    List.sorted_insertionSort _ _
  exact List.Pairwise.map _ (fun a b h => aux_rowLe_clamp chroms h) hs

/-- **C7 witness.** Sortedness at a concrete index and table (the index
declares `chr2` before `chr1`, so rank order is declaration order). -/
theorem claim7_witness :
    List.Sorted (rowLe ["chr2", "chr1"])
      (tsv2gff3Emitted ["chr2", "chr1"]
        [⟨"chr1", 5, []⟩, ⟨"chr2", 9, []⟩, ⟨"chr2", 2, []⟩]) :=
  claim7_sort_invariant _ _ (by decide)

/-- **C6 counterexample.** The start transform only rewrites 0 to 1; a
negative input start passes through unchanged, so an emitted record can have
start < 1, contradicting "every emitted record has start >= 1". -/
theorem claim6_counterexample :
    (tsv2gff3Emitted ["chr1"] [⟨"chr1", -5, []⟩]).map DbRow.start = [-5] ∧
    ¬ (1 ≤ (-5 : Int)) := by
  constructor
  · decide
  · decide

/-- **C6 (amended).** Start-coordinate clamping in `Tsv2Gff3` line 261: the
transform rewrites exactly 0 to 1 and passes every other value through
unchanged; consequently every emitted record has start ≥ 1 whenever every
input start is non-negative (as 0-based genomic coordinates are). -/
theorem claim6_clamp_amended :
    (∀ x : Int, clampStart x = (if x = 0 then 1 else x)) ∧
    clampStart 0 = 1 ∧
    (∀ x : Int, x ≠ 0 → clampStart x = x) ∧
    (∀ (chroms : List String) (rows : List DbRow),
      rows.all (fun r => decide (0 ≤ r.start)) = true →
      (tsv2gff3Emitted chroms rows).all (fun r => decide (1 ≤ r.start)) = true) := by
  refine ⟨fun x => rfl, rfl, ?_, ?_⟩
  · intro x hx
    unfold clampStart
    rw [if_neg hx]
  · intro chroms rows hall
    rw [List.all_eq_true] at hall ⊢
    intro r hr
    unfold tsv2gff3Emitted at hr
    obtain ⟨r0, hr0, rfl⟩ := List.mem_map.mp hr
    have hr1 : r0 ∈ rows.filter (fun r => chroms.contains r.chrom) :=
      (List.Perm.mem_iff (List.perm_insertionSort _ _)).mp hr0
    have hr2 : r0 ∈ rows := List.mem_of_mem_filter hr1
    have h0 := hall r0 hr2
    rw [decide_eq_true_eq] at h0 ⊢
    show 1 ≤ clampStart r0.start
    unfold clampStart
    split <;> omega

/-- **C6 witness.** Clamping at a table containing a 0 start. -/
theorem claim6_witness :
    (tsv2gff3Emitted ["chr1"] [⟨"chr1", 0, []⟩, ⟨"chr1", 3, []⟩]).all
      (fun r => decide (1 ≤ r.start)) = true :=
  claim6_clamp_amended.2.2.2 ["chr1"] _ (by decide)

theorem aux_lexLe_total : ∀ a b : List Char, lexLe a b = true ∨ lexLe b a = true := by
  intro a
  induction a with
  | nil => intro b; exact Or.inl rfl
  | cons x xs ih =>
    intro b
    cases b with
    | nil => exact Or.inr rfl
    | cons y ys =>
      rcases lt_trichotomy x y with h | h | h
      · left; simp [lexLe, h]
      · subst h
        rcases ih ys with h2 | h2
        · left; simp [lexLe, h2]
        · right; simp [lexLe, h2]
      · right; simp [lexLe, h]

theorem aux_lexLe_trans : ∀ a b c : List Char,
    lexLe a b = true → lexLe b c = true → lexLe a c = true := by
  intro a
  induction a with
  | nil => intro b c _ _; rfl
  | cons x xs ih =>
    intro b c hab hbc
    cases b with
    | nil => simp [lexLe] at hab
    | cons y ys =>
      cases c with
      | nil => simp [lexLe] at hbc
      | cons z zs =>
        simp only [lexLe, Bool.or_eq_true, Bool.and_eq_true, decide_eq_true_eq] at hab hbc ⊢
        rcases hab with h1 | ⟨h1, h1t⟩ <;> rcases hbc with h2 | ⟨h2, h2t⟩
        · exact Or.inl (lt_trans h1 h2)
        · exact Or.inl (h2 ▸ h1)
        · exact Or.inl (h1 ▸ h2)
        · exact Or.inr ⟨h1.trans h2, ih ys zs h1t h2t⟩

theorem aux_jvalLe_total : ∀ a b : JVal, jvalLe a b = true ∨ jvalLe b a = true := by
  intro a b
  cases a with
  | jstr sa =>
    cases b with
    | jstr sb => exact aux_lexLe_total sa.data sb.data
    | jint nb => exact Or.inr rfl
  | jint na =>
    cases b with
    | jstr sb => exact Or.inl rfl
    | jint nb =>
      rcases Int.le_total na nb with h | h
      · left; simp [jvalLe, h]
      · right; simp [jvalLe, h]

theorem aux_jvalLe_trans : ∀ a b c : JVal,
    jvalLe a b = true → jvalLe b c = true → jvalLe a c = true := by
  intro a b c hab hbc
  cases a <;> cases b <;> cases c <;>
    simp only [jvalLe, decide_eq_true_eq] at hab hbc ⊢ <;>
    first
    | trivial
    | exact aux_lexLe_trans _ _ _ hab hbc
    | exact Int.le_trans hab hbc

instance jvalLeP.instIsTotal : IsTotal JVal jvalLeP :=
  ⟨fun a b => aux_jvalLe_total a b⟩

instance jvalLeP.instIsTrans : IsTrans JVal jvalLeP :=
  ⟨fun a b c => aux_jvalLe_trans a b c⟩

theorem aux_optMapM_some {α β : Type} (f : α → Option β) (g : α → β) :
    ∀ l : List α, (∀ a ∈ l, f a = some (g a)) → optMapM f l = some (l.map g) := by
  intro l
  induction l with
  | nil => intro; rfl
  | cons a r ih =>
    intro h
    simp only [optMapM, h a (List.mem_cons_self _ _),
      ih (fun x hx => h x (List.mem_cons_of_mem _ hx)), List.map_cons]

theorem aux_lookup_mem_keys {k : String} : ∀ d : Dict, k ∈ d.map Prod.fst →
    ∃ v, d.lookup k = some v := by
  intro d
  induction d with
  | nil => intro h; cases h
  | cons e r ih =>
    intro h
    obtain ⟨k0, v0⟩ := e
    by_cases he : k = k0
    · subst he
      exact ⟨v0, by simp [List.lookup]⟩
    · rcases List.mem_cons.mp h with h1 | h1
      · exact absurd h1 he
      · obtain ⟨v, hv⟩ := ih h1
        exact ⟨v, by simp [List.lookup, beq_eq_false_iff_ne.mpr he, hv]⟩

theorem aux_lookup_map_tag {β : Type} (tag : String → String) (F : String → β)
    (htag : ∀ a b, tag a = tag b → a = b) :
    ∀ keys : List String, keys.Nodup → ∀ k ∈ keys,
      (keys.map (fun j => (tag j, F j))).lookup (tag k) = some (F k) := by
  intro keys
  induction keys with
  | nil => intro _ k hk; cases hk
  | cons j0 rest ih =>
    intro hnd k hk
    rcases List.mem_cons.mp hk with rfl | hk2
    · simp [List.lookup]
    · have hne : tag k ≠ tag j0 := by
        intro he
        exact (List.nodup_cons.mp hnd).1 (htag _ _ he ▸ hk2)
      rw [List.map_cons]
      show List.lookup (tag k) ((tag j0, F j0) :: rest.map (fun j => (tag j, F j))) = some (F k)
      simp only [List.lookup, beq_eq_false_iff_ne.mpr hne]
      exact ih (List.nodup_cons.mp hnd).2 k hk2

theorem aux_string_data_inj {a b : String} (h : a.data = b.data) : a = b := by
  cases a
  cases b
  exact congrArg String.mk h

theorem aux_string_append_left_cancel {p a b : String} (h : p ++ a = p ++ b) : a = b := by
  apply aux_string_data_inj
  have hd := congrArg String.data h
  simp only [String.data_append] at hd
  exact List.append_cancel_left hd

/-- **C2 counterexample.** A variant overlapping three intervals with
sub-field `X` values `[1, 2, 2]` yields the merged field `"1; 2"` — the code
joins with `'; '` (semicolon and space, line 331) — not `"1;2"` as claimed. -/
theorem claim2_counterexample :
    dbMergedRow "db" ["X"] true
        (some [[("X", JVal.jint 1)], [("X", JVal.jint 2)], [("X", JVal.jint 2)]]) =
      some [("db.X", "1; 2")] ∧ ("1; 2" : String) ≠ "1;2" := by
  constructor
  · decide
  · decide

/-- **C2 (amended).** Multi-interval aggregation in the `CureBase` merge:
for a variant whose decoded overlap list from one database is non-empty, the
sub-field names are taken from the first overlapping interval (one database's
intervals always share the same key set, which the hypothesis states), and
for each such sub-field the merged column equals the values of that sub-field
across ALL overlapping intervals, deduplicated, sorted, and joined with
`"; "` (semicolon and space) — e.g. values `[1, 2, 2]` yield `"1; 2"`.
The first conjunct states that `sortDedup` really is the sorted,
deduplicated enumeration of the collected values. -/
theorem claim2_aggregation_amended :
    (∀ xs : List JVal,
      (sortDedup xs).Sorted jvalLeP ∧ (sortDedup xs).Nodup ∧
        (∀ v, v ∈ sortDedup xs ↔ v ∈ xs)) ∧
    (∀ (dbName : String) (d0 : Dict) (rest : List Dict) (k : String),
      (∀ d ∈ d0 :: rest, d.map Prod.fst = d0.map Prod.fst) →
      (d0.map Prod.fst).Nodup →
      d0 ≠ [] →
      k ∈ d0.map Prod.fst →
      (optMapM (fun dic => dic.lookup k) (d0 :: rest)).isSome = true ∧
      (dbMergedRow dbName (d0.map Prod.fst) true (some (d0 :: rest))).bind
          (fun row => row.lookup (dbName ++ "." ++ k)) =
        (optMapM (fun dic => dic.lookup k) (d0 :: rest)).map
          (fun vs => String.mk (joinSep "; ".data
            ((sortDedup vs).map (fun v => (jvalStr v).data))))) := by
  constructor
  · intro xs
    refine ⟨List.sorted_insertionSort _ _, ?_, ?_⟩
    · exact (List.Perm.nodup_iff (List.perm_insertionSort _ _)).mpr (List.nodup_dedup xs)
    · intro v
      unfold sortDedup
      rw [List.Perm.mem_iff (List.perm_insertionSort _ _), List.mem_dedup]
  · intro dbName d0 rest k hkeys hnodup hne hk
    have htag : ∀ a b : String, dbName ++ "." ++ a = dbName ++ "." ++ b → a = b :=
      fun a b h => aux_string_append_left_cancel h
    have hfg : ∀ k', k' ∈ d0.map Prod.fst → ∀ d ∈ d0 :: rest,
        d.lookup k' = some ((d.lookup k').getD (JVal.jstr "")) := by
      intro k' hk' d hd
      obtain ⟨v, hv⟩ := aux_lookup_mem_keys d (by rw [hkeys d hd]; exact hk')
      rw [hv]
      rfl
    have hvs := aux_optMapM_some (fun dic => dic.lookup k)
      (fun d => (d.lookup k).getD (JVal.jstr "")) (d0 :: rest) (hfg k hk)
    refine ⟨by rw [hvs]; rfl, ?_⟩
    have hexp : expandCell dbName (d0 :: rest) = some ((d0.map Prod.fst).map
        (fun k' => (dbName ++ "." ++ k',
          (d0 :: rest).map (fun d => (d.lookup k').getD (JVal.jstr ""))))) := by
      simp only [expandCell]
      rw [if_neg hne]
      apply aux_optMapM_some
      intro k' hk'
      have h2 := aux_optMapM_some (fun dic => dic.lookup k')
        (fun d => (d.lookup k').getD (JVal.jstr "")) (d0 :: rest) (hfg k' hk')
      simp only [h2]
    have hkeysne : d0.map Prod.fst ≠ [] := by
      cases d0 with
      | nil => exact absurd rfl hne
      | cons e r => simp
    have hcols : dbExpectedCols dbName (d0.map Prod.fst) =
        (d0.map Prod.fst).map (fun c => dbName ++ "." ++ c) := by
      rw [dbExpectedCols, if_neg]
      rw [List.isEmpty_iff]
      exact hkeysne
    have hlook1 : (List.map (fun j => (dbName ++ "." ++ j,
        flattenCell ((((d0.map Prod.fst).map (fun k' => (dbName ++ "." ++ k',
          (d0 :: rest).map (fun d => (d.lookup k').getD (JVal.jstr ""))))).lookup
            (dbName ++ "." ++ j))))) (d0.map Prod.fst)).lookup (dbName ++ "." ++ k) =
        some (flattenCell ((((d0.map Prod.fst).map (fun k' => (dbName ++ "." ++ k',
          (d0 :: rest).map (fun d => (d.lookup k').getD (JVal.jstr ""))))).lookup
            (dbName ++ "." ++ k)))) :=
      aux_lookup_map_tag (fun j => dbName ++ "." ++ j)
        (fun j => flattenCell ((((d0.map Prod.fst).map (fun k' => (dbName ++ "." ++ k',
          (d0 :: rest).map (fun d => (d.lookup k').getD (JVal.jstr ""))))).lookup
            (dbName ++ "." ++ j))))
        htag (d0.map Prod.fst) hnodup k hk
    have hlook2 : (List.map (fun j => (dbName ++ "." ++ j,
        (d0 :: rest).map (fun d => (d.lookup j).getD (JVal.jstr ""))))
          (d0.map Prod.fst)).lookup (dbName ++ "." ++ k) =
        some ((d0 :: rest).map (fun d => (d.lookup k).getD (JVal.jstr ""))) :=
      aux_lookup_map_tag (fun j => dbName ++ "." ++ j)
        (fun j => (d0 :: rest).map (fun d => (d.lookup j).getD (JVal.jstr "")))
        htag (d0.map Prod.fst) hnodup k hk
    simp only [dbMergedRow, hexp, hcols, Bool.true_eq_false, if_false, Option.bind]
    rw [List.map_map]
    rw [show ((fun c => (c, flattenCell ((((d0.map Prod.fst).map (fun k' =>
        (dbName ++ "." ++ k', (d0 :: rest).map (fun d =>
          (d.lookup k').getD (JVal.jstr ""))))).lookup c)))) ∘ (fun c => dbName ++ "." ++ c)) =
        (fun j => (dbName ++ "." ++ j, flattenCell ((((d0.map Prod.fst).map (fun k' =>
          (dbName ++ "." ++ k', (d0 :: rest).map (fun d =>
            (d.lookup k').getD (JVal.jstr ""))))).lookup (dbName ++ "." ++ j))))) from rfl]
    rw [hlook1, hlook2, hvs]
    rfl

/-- **C2 witness.** The aggregation theorem instantiated at the three-interval
overlap with values `[1, 2, 2]`. -/
theorem claim2_witness :
    (dbMergedRow "db" ["X"] true
        (some [[("X", JVal.jint 1)], [("X", JVal.jint 2)], [("X", JVal.jint 2)]])).bind
        (fun row => row.lookup ("db" ++ "." ++ "X")) =
      (optMapM (fun dic => dic.lookup "X")
          [[("X", JVal.jint 1)], [("X", JVal.jint 2)], [("X", JVal.jint 2)]]).map
        (fun vs => String.mk (joinSep "; ".data
          ((sortDedup vs).map (fun v => (jvalStr v).data)))) :=
  (claim2_aggregation_amended.2 "db" [("X", JVal.jint 1)]
    [[("X", JVal.jint 2)], [("X", JVal.jint 2)]] "X"
    (by decide) (by decide) (by decide) (by decide)).2

end ExoNote
